import Mathlib

/-!
Verification of the EMA crossover scanner (`src/lib/solanaScanner.js` and the
control route `src/pages/api/solana/scanner.js`) against its specification.

Prices and EMA values are embedded as rationals (the JS code performs plain
floating-point arithmetic with no rounding policy; the algorithmic content is
exact arithmetic).  Timestamps are integers.  Fallible external calls are
modelled by an environment record carrying the value each call would produce,
with `Option`/`Bool` fields for calls that can throw.
-/

namespace Scanner

/-- Configured fast EMA period (`this.ema12Period = 12`). -/
def ema12Period : ℕ := 12

/-- Configured slow EMA period (`this.ema25Period = 25`). -/
def ema25Period : ℕ := 25

/-- Default historical backfill size (`this.historicalDataPoints = 100`). -/
def historicalDataPoints : ℕ := 100

/-- Scan interval in milliseconds (`15 * 60 * 1000`). -/
def scanInterval : ℤ := 15 * 60 * 1000

/-- One persisted or fetched price point: `{timestamp, price, volume}`. -/
structure PricePoint where
  timestamp : ℤ
  price : ℚ
  volume : ℚ
deriving Repr, DecidableEq

/-- One iteration of the EMA loop body (`solanaScanner.js:174`):
`ema = (prices[i] * multiplier) + (ema * (1 - multiplier))`. -/
def emaStep (k ema p : ℚ) : ℚ := p * k + ema * (1 - k)

/-- The `for` loop of `calculateEMA` (`solanaScanner.js:173-175`). -/
def emaLoop (k : ℚ) : ℚ → List ℚ → ℚ
  | ema, [] => ema
  | ema, p :: ps => emaLoop k (emaStep k ema p) ps

/-- `calculateEMA(prices, period)` (`solanaScanner.js:164-178`): `null` when
fewer than `period` prices, otherwise seed with the simple average of the
first `period` prices and fold the remaining prices with
`multiplier = 2 / (period + 1)`. -/
def calculateEMA (prices : List ℚ) (period : ℕ) : Option ℚ :=
  if prices.length < period then none
  else
    some (emaLoop (2 / ((period : ℚ) + 1))
      ((prices.take period).sum / (period : ℚ))
      (prices.drop period))

/-- Modelled from the spec (§4.1 algorithm): seed with the simple average of
the first `period` values; for each subsequent value `v`,
`ema := v*k + ema*(1-k)` with `k = 2/(period+1)`; absent when the series is
shorter than `period`. -/
def computeEmaSpec (prices : List ℚ) (period : ℕ) : Option ℚ :=
  if prices.length < period then none
  else
    let k : ℚ := 2 / ((period : ℚ) + 1)
    some ((prices.drop period).foldl (fun ema v => v * k + ema * (1 - k))
      ((prices.take period).sum / (period : ℚ)))

/-- Crossover verdicts stored as `'bullish'` / `'bearish'`. -/
inductive Signal
  | bullish
  | bearish
deriving Repr, DecidableEq

/-- JavaScript truthiness of a nullable number: `null` and `0` are falsy
(`!x` in `solanaScanner.js:181`). -/
def falsy : Option ℚ → Bool
  | none => true
  | some x => x == 0

/-- `detectEMACrossover` (`solanaScanner.js:180-194`).  The absence check
`!previousEMA12 || !previousEMA25 || !currentEMA12 || !currentEMA25` uses
truthiness, so a value of exactly `0` is treated as absent. -/
def detectEMACrossover (currentEMA12 currentEMA25 previousEMA12 previousEMA25 : Option ℚ) :
    Option Signal :=
  if falsy previousEMA12 || falsy previousEMA25 || falsy currentEMA12 || falsy currentEMA25 then
    none
  else
    match currentEMA12, currentEMA25, previousEMA12, previousEMA25 with
    | some c12, some c25, some p12, some p25 =>
      if p12 ≤ p25 ∧ c25 < c12 then some .bullish
      else if p25 ≤ p12 ∧ c12 < c25 then some .bearish
      else none
    | _, _, _, _ => none

/-- Result shape of `getCombinedPriceData` (`solanaScanner.js:152-157`).  The
code returns `prices = series.map (·.price)`; the underlying points are kept
here so that ordering properties of the assembled series can be stated. -/
structure CombinedData where
  series : List PricePoint
  storedCount : ℕ
  historicalCount : ℕ
deriving Repr, DecidableEq

/-- `getCombinedPriceData` (`solanaScanner.js:115-162`).  `stored` is the
result of `getLastStoredData(50)` (rows oldest-first); `fetchHist n` is the
result of `fetchHistoricalData(n)` (candles sorted chronologically; `[]` when
the fetch fails).  In the backfill branch the code computes
`latestStoredTime = storedData[storedData.length - 1].timestamp` — the NEWEST
stored row, since the array is oldest-first — and keeps every fetched candle
with `item.timestamp < latestStoredTime`, then prepends the kept candles to
the stored rows. -/
def getCombinedSeries (stored : List PricePoint) (fetchHist : ℕ → List PricePoint) :
    CombinedData :=
  match stored with
  | [] =>
    let hist := fetchHist historicalDataPoints
    { series := hist, storedCount := 0, historicalCount := hist.length }
  | s0 :: srest =>
    let storedList := s0 :: srest
    let neededPoints := ema25Period - storedList.length
    if 0 < neededPoints then
      let hist := fetchHist (neededPoints + 10)
      if 0 < hist.length then
        let latestStoredTime := (storedList.getLastD s0).timestamp
        let filteredHistorical := hist.filter (fun item => item.timestamp < latestStoredTime)
        { series := filteredHistorical ++ storedList,
          storedCount := storedList.length, historicalCount := hist.length }
      else
        { series := storedList, storedCount := storedList.length,
          historicalCount := hist.length }
    else
      { series := storedList, storedCount := storedList.length, historicalCount := 0 }

/-- Result of `fetchCurrentPrice` (`solanaScanner.js:41-46`). -/
structure PriceData where
  price : ℚ
  volume : ℚ
  timestamp : ℤ
  apiResponseTime : ℤ
deriving Repr, DecidableEq

/-- Scan origin: `scanType` parameter of `scanPrice`. -/
inductive ScanType
  | manual
  | automatic
deriving Repr, DecidableEq

/-- Outcome of a scan-history row (`status IN ('success','error')`). -/
inductive Outcome
  | success
  | error
deriving Repr, DecidableEq

/-- Environment of one `scanPrice` invocation: the value each external call
would produce.  `fetchCurrent = none` models `fetchCurrentPrice` throwing with
message `fetchErrMsg`; `storePriceOk = false` (resp. `storeSignalOk = false`)
models the Supabase insert in `storePriceData` (resp. `storeEMASignal`)
throwing.  `getCombinedPriceData`, `storeScanHistory`, `updateScannerStatus`
and the webhook sender catch their own failures and never throw; `webhookOk`
is the value of `webhookResult?.success || false`.  `now` is the scan start
timestamp (`new Date()`), `elapsed` the measured `Date.now() - scanStartTime`. -/
structure ScanEnv where
  fetchCurrent : Option PriceData
  fetchErrMsg : String
  stored : List PricePoint
  fetchHist : ℕ → List PricePoint
  storePriceOk : Bool
  storePriceErrMsg : String
  storeSignalOk : Bool
  storeSignalErrMsg : String
  webhookOk : Bool
  now : ℤ
  elapsed : ℤ

/-- In-memory scanner status (`this.currentStatus`). -/
structure ScannerStatus where
  isRunning : Bool
  startedAt : Option ℤ
  lastScanAt : Option ℤ
  nextScanAt : Option ℤ
  scanCount : ℕ
deriving Repr, DecidableEq

/-- Row inserted into `sol_price_data` (`solanaScanner.js:605-611`). -/
structure PriceRow where
  timestamp : ℤ
  price : ℚ
  volume : ℚ
  ema_12 : Option ℚ
  ema_25 : Option ℚ
deriving Repr, DecidableEq

/-- Row inserted into `ema_signals` (`solanaScanner.js:614-625`). -/
structure SignalRow where
  timestamp : ℤ
  signal_type : Signal
  price : ℚ
  ema_12 : Option ℚ
  ema_25 : Option ℚ
  previous_ema_12 : Option ℚ
  previous_ema_25 : Option ℚ
  scan_type : ScanType
deriving Repr, DecidableEq

/-- Row inserted into `scan_history` by `storeScanHistory`
(`solanaScanner.js:466-517`), restricted to the fields the orchestrator fills
(the `scanner_status_update` snapshot rows written by `updateScannerStatus`
are the run-state side channel, not ScanRecords, and are not modelled). -/
structure ScanRecordRow where
  scan_type : ScanType
  timestamp : ℤ
  status : Outcome
  price : Option ℚ
  ema_12 : Option ℚ
  ema_25 : Option ℚ
  crossover_detected : Option Signal
  data_points : Option ℕ
  error_message : Option String
  duration_ms : ℤ
  webhook_sent : Bool
deriving Repr, DecidableEq

/-- Return value of `scanPrice` (`solanaScanner.js:663-670` on success,
`solanaScanner.js:689` on failure; fields absent from the JS failure object
are `none`/`false` here). -/
structure ScanResult where
  success : Bool
  price : Option ℚ
  ema12 : Option ℚ
  ema25 : Option ℚ
  crossover : Option Signal
  dataPoints : Option ℕ
  executionTime : ℤ
  webhookSent : Bool
  error : Option String
deriving Repr, DecidableEq

/-- Everything one `scanPrice` invocation produces: the updated in-memory
status, the returned result, and the rows submitted for insertion. -/
structure ScanOutput where
  status : ScannerStatus
  result : ScanResult
  priceRows : List PriceRow
  signalRows : List SignalRow
  scanRecords : List ScanRecordRow

/-- The four EMA values of `solanaScanner.js:581-595`: current and previous
fast/slow EMA; `previous` is recomputed over `allPrices.slice(0, -1)`. -/
def computeEmas (allPrices : List ℚ) :
    Option ℚ × Option ℚ × Option ℚ × Option ℚ :=
  let ema12 := if ema12Period ≤ allPrices.length then calculateEMA allPrices ema12Period else none
  let previousEMA12 :=
    if ema12Period < allPrices.length then calculateEMA allPrices.dropLast ema12Period else none
  let ema25 := if ema25Period ≤ allPrices.length then calculateEMA allPrices ema25Period else none
  let previousEMA25 :=
    if ema25Period < allPrices.length then calculateEMA allPrices.dropLast ema25Period else none
  (ema12, ema25, previousEMA12, previousEMA25)

/-- The crossover value after `solanaScanner.js:597-603`: the detector runs
only under the truthiness guard `ema12 && ema25 && previousEMA12 &&
previousEMA25`. -/
def crossoverOfPrices (allPrices : List ℚ) : Option Signal :=
  let e := computeEmas allPrices
  if !falsy e.1 && !falsy e.2.1 && !falsy e.2.2.1 && !falsy e.2.2.2 then
    detectEMACrossover e.1 e.2.1 e.2.2.1 e.2.2.2
  else none

/-- The price series a scan computes EMAs over: assembled series plus the
just-fetched current price (`solanaScanner.js:579`). -/
def allPricesOf (env : ScanEnv) (cur : PriceData) : List ℚ :=
  (getCombinedSeries env.stored env.fetchHist).series.map PricePoint.price ++ [cur.price]

/-- The detector verdict of a scan in environment `env` (`none` when the
current-price fetch throws, so the detector never runs). -/
def scanVerdict (env : ScanEnv) : Option Signal :=
  match env.fetchCurrent with
  | none => none
  | some cur => crossoverOfPrices (allPricesOf env cur)

/-- Result and persisted rows of one scan, without the status update. -/
structure ScanEffects where
  result : ScanResult
  priceRows : List PriceRow
  signalRows : List SignalRow
  scanRecords : List ScanRecordRow
deriving Repr

/-- Effects of the `catch` block (`solanaScanner.js:672-690`): an error
ScanRecord carrying the captured message and the elapsed time, and a failure
result `{success: false, error, executionTime}`; rows persisted before the
throw remain persisted. -/
def errEffects (ty : ScanType) (now elapsed : ℤ) (msg : String)
    (priceRows : List PriceRow) : ScanEffects :=
  { result := { success := false, price := none, ema12 := none, ema25 := none,
                crossover := none, dataPoints := none, executionTime := elapsed,
                webhookSent := false, error := some msg },
    priceRows := priceRows,
    signalRows := [],
    scanRecords := [{ scan_type := ty, timestamp := now, status := Outcome.error,
                      price := none, ema_12 := none, ema_25 := none,
                      crossover_detected := none, data_points := none,
                      error_message := some msg, duration_ms := elapsed,
                      webhook_sent := false }] }

/-- Effects of a scan that reaches `PERSIST_SCAN_RECORD` with status
`success` (`solanaScanner.js:636-670`): a success ScanRecord carrying price,
both EMAs, the crossover value, the series length, elapsed time and the
webhook flag, plus the rows persisted earlier in the scan. -/
def successEffects (ty : ScanType) (now elapsed : ℤ) (cur : PriceData)
    (e : Option ℚ × Option ℚ × Option ℚ × Option ℚ) (crossover : Option Signal)
    (nPoints : ℕ) (priceRow : PriceRow) (sigRows : List SignalRow)
    (webhookSent : Bool) : ScanEffects :=
  { result := { success := true, price := some cur.price, ema12 := e.1, ema25 := e.2.1,
                crossover := crossover, dataPoints := some nPoints,
                executionTime := elapsed, webhookSent := webhookSent, error := none },
    priceRows := [priceRow],
    signalRows := sigRows,
    scanRecords := [{ scan_type := ty, timestamp := now, status := Outcome.success,
                      price := some cur.price, ema_12 := e.1, ema_25 := e.2.1,
                      crossover_detected := crossover, data_points := some nPoints,
                      error_message := none, duration_ms := elapsed,
                      webhook_sent := webhookSent }] }

/-- The `try` body of `scanPrice` from the current-price fetch onward
(`solanaScanner.js:577-670`) together with its `catch` handler: fetch the
current price, assemble the series, compute EMAs and the crossover, persist
the price row, persist a signal row and notify under the truthiness guard
`crossover && ema12 && ema25`, then record a success ScanRecord.  A throwing
step diverts to `errEffects`. -/
def scanEffects (env : ScanEnv) (ty : ScanType) : ScanEffects :=
  match env.fetchCurrent with
  | none => errEffects ty env.now env.elapsed env.fetchErrMsg []
  | some cur =>
    let allPrices := allPricesOf env cur
    let e := computeEmas allPrices
    let crossover := crossoverOfPrices allPrices
    if env.storePriceOk then
      let priceRow : PriceRow :=
        { timestamp := cur.timestamp, price := cur.price, volume := cur.volume,
          ema_12 := e.1, ema_25 := e.2.1 }
      match crossover with
      | some sigKind =>
        if falsy e.1 = false ∧ falsy e.2.1 = false then
          if env.storeSignalOk then
            let sigRow : SignalRow :=
              { timestamp := cur.timestamp, signal_type := sigKind, price := cur.price,
                ema_12 := e.1, ema_25 := e.2.1,
                previous_ema_12 := e.2.2.1, previous_ema_25 := e.2.2.2, scan_type := ty }
            successEffects ty env.now env.elapsed cur e crossover allPrices.length
              priceRow [sigRow] env.webhookOk
          else errEffects ty env.now env.elapsed env.storeSignalErrMsg [priceRow]
        else
          successEffects ty env.now env.elapsed cur e crossover allPrices.length
            priceRow [] false
      | none =>
        successEffects ty env.now env.elapsed cur e crossover allPrices.length
          priceRow [] false
    else errEffects ty env.now env.elapsed env.storePriceErrMsg []

/-- `scanPrice(scanType)` (`solanaScanner.js:562-691`): unconditionally bump
`scanCount`, set `lastScanAt` to the scan start timestamp (and `nextScanAt`
for automatic scans), then run the scan body with its catch handler. -/
def scanPrice (st : ScannerStatus) (env : ScanEnv) (ty : ScanType) : ScanOutput :=
  let st1 : ScannerStatus :=
    { st with scanCount := st.scanCount + 1,
              lastScanAt := some env.now,
              nextScanAt := if ty = ScanType.automatic then some (env.now + scanInterval)
                            else st.nextScanAt }
  let eff := scanEffects env ty
  { status := st1, result := eff.result, priceRows := eff.priceRows,
    signalRows := eff.signalRows, scanRecords := eff.scanRecords }

/-! ### Scheduler route model

`src/pages/api/solana/scanner.js` keeps two module-level variables,
`scannerInstance` and `scannerIntervalId`, and drives the scanner through
POST actions.  `startScanning()` (`solanaScanner.js:701-718`) is an `async`
function that runs one automatic scan, registers a `setInterval`, and returns
the interval id; the route calls it WITHOUT `await`
(`scannerIntervalId = scannerInstance.startScanning()`, line 62), so the
module variable holds the returned Promise, not the interval id.
`stopScanning` (`solanaScanner.js:720-730`) does
`clearInterval(intervalId || this.currentStatus.intervalId)`; the passed
Promise is truthy, and `clearInterval` applied to a Promise clears nothing,
so the underlying interval keeps firing. -/

/-- Scheduler route state.  `live` holds the ids of `setInterval` schedules
that have been registered and never actually cleared; `stored` records the
interval id underlying the Promise held by `scannerIntervalId` (`none` when
the variable is `null`); `nextId` is a fresh-handle counter; `scansRun`
counts automatic scans started immediately by `startScanning()`. -/
structure SchedulerState where
  live : List ℕ
  stored : Option ℕ
  nextId : ℕ
  scansRun : ℕ
deriving Repr, DecidableEq

/-- `POST action=start` (`scanner.js:54-66`): when `scannerIntervalId` is
truthy, reply already-running and change nothing (`true` flag); otherwise
call the un-awaited `startScanning()`, which runs one automatic scan and
registers a fresh interval, and store the returned Promise. -/
def startAction (s : SchedulerState) : SchedulerState × Bool :=
  match s.stored with
  | some _ => (s, true)
  | none =>
    ({ live := s.live ++ [s.nextId], stored := some s.nextId,
       nextId := s.nextId + 1, scansRun := s.scansRun + 1 }, false)

/-- `POST action=stop` (`scanner.js:68-81`): when `scannerIntervalId` is
`null`, reply not-running and change nothing; otherwise call
`stopScanning(scannerIntervalId)` — `clearInterval` receives the stored
Promise, which is not an interval handle, so no schedule is cleared — and set
`scannerIntervalId = null`. -/
def stopAction (s : SchedulerState) : SchedulerState :=
  match s.stored with
  | none => s
  | some _ => { s with stored := none }

/-- `POST action=restart` (`scanner.js:83-95`): stop if the variable is set
(again clearing nothing), then start unconditionally. -/
def restartAction (s : SchedulerState) : SchedulerState :=
  (startAction (stopAction s)).1

/-- The three POST control actions of the route. -/
inductive Action
  | start
  | stop
  | restart
deriving Repr, DecidableEq

/-- One route invocation. -/
def schedStep (s : SchedulerState) : Action → SchedulerState
  | .start => (startAction s).1
  | .stop => stopAction s
  | .restart => restartAction s

/-- Module-load state: both variables `null`, nothing scheduled. -/
def schedInit : SchedulerState :=
  { live := [], stored := none, nextId := 0, scansRun := 0 }

/-- The state reached by a sequence of route invocations. -/
def schedRun (acts : List Action) : SchedulerState :=
  acts.foldl schedStep schedInit

/-! ### Concrete inputs used by witnesses and counterexamples -/

/-- Backfill-branch input: two stored rows, oldest-first, timestamps 100 and
200 (fewer than the slow period 25, so the code fetches history). -/
def c1Stored : List PricePoint := [⟨100, 10, 0⟩, ⟨200, 11, 0⟩]

/-- Historical candles sorted chronologically, overlapping the stored span:
50 precedes all stored rows, 100 collides with a stored row, 150 falls
between the stored rows. -/
def c1Hist : List PricePoint := [⟨50, 9, 0⟩, ⟨100, 9, 0⟩, ⟨150, 10, 0⟩]

/-- Twenty-five stored rows at constant price 10, timestamps 1..25. -/
def constStored : List PricePoint :=
  [⟨1, 10, 0⟩, ⟨2, 10, 0⟩, ⟨3, 10, 0⟩, ⟨4, 10, 0⟩, ⟨5, 10, 0⟩,
   ⟨6, 10, 0⟩, ⟨7, 10, 0⟩, ⟨8, 10, 0⟩, ⟨9, 10, 0⟩, ⟨10, 10, 0⟩,
   ⟨11, 10, 0⟩, ⟨12, 10, 0⟩, ⟨13, 10, 0⟩, ⟨14, 10, 0⟩, ⟨15, 10, 0⟩,
   ⟨16, 10, 0⟩, ⟨17, 10, 0⟩, ⟨18, 10, 0⟩, ⟨19, 10, 0⟩, ⟨20, 10, 0⟩,
   ⟨21, 10, 0⟩, ⟨22, 10, 0⟩, ⟨23, 10, 0⟩, ⟨24, 10, 0⟩, ⟨25, 10, 0⟩]

/-- An environment whose scan detects a bullish crossover: 25 stored prices
of 10 and a current price of 23, giving EMA12 = 12 > EMA25 = 11 with both
previous EMAs equal to 10. -/
def envSig : ScanEnv :=
  { fetchCurrent := some { price := 23, volume := 5, timestamp := 26, apiResponseTime := 7 },
    fetchErrMsg := "fetch failed", stored := constStored, fetchHist := fun _ => [],
    storePriceOk := true, storePriceErrMsg := "price insert failed",
    storeSignalOk := true, storeSignalErrMsg := "signal insert failed",
    webhookOk := false, now := 26, elapsed := 42 }

/-- `envSig` with the `ema_signals` insert throwing. -/
def envSigFail : ScanEnv := { envSig with storeSignalOk := false }

/-- `envSig` with the current-price fetch throwing. -/
def envFetchFail : ScanEnv := { envSig with fetchCurrent := none }

/-- Fresh in-memory status (`this.currentStatus` at construction). -/
def initialStatus : ScannerStatus :=
  { isRunning := false, startedAt := none, lastScanAt := none, nextScanAt := none,
    scanCount := 0 }

/-- A strictly increasing 25-element price list. -/
def upList : List ℚ :=
  [1, 2, 3, 4, 5, 6, 7, 8, 9, 10, 11, 12, 13, 14, 15, 16, 17, 18, 19, 20,
   21, 22, 23, 24, 25]

/-! ### Supporting lemmas -/

/-- The EMA loop is the left fold of the spec's update rule. -/
theorem emaLoop_eq_foldl (k : ℚ) (e : ℚ) (l : List ℚ) :
    emaLoop k e l = l.foldl (fun ema v => v * k + ema * (1 - k)) e := by
  induction l generalizing e with
  | nil => rfl
  | cons p ps ih => simpa [emaLoop, emaStep] using ih (emaStep k e p)

/-- With multiplier 1 the EMA loop returns the last processed element. -/
theorem emaLoop_one (e : ℚ) (l : List ℚ) : emaLoop 1 e l = l.getLastD e := by
  induction l generalizing e with
  | nil => rfl
  | cons p ps ih =>
    have hstep : emaStep 1 e p = p := by simp [emaStep]
    rw [emaLoop, hstep, ih p, List.getLastD_cons]

/-- `getLastD` of the tail is `getLast` of the whole list. -/
theorem getLastD_eq_getLast_cons (p : ℚ) (ps : List ℚ) :
    ps.getLastD p = (p :: ps).getLast (List.cons_ne_nil p ps) := by
  induction ps generalizing p with
  | nil => rfl
  | cons q qs ih =>
    rw [List.getLastD_cons, ih q, List.getLast_cons (List.cons_ne_nil q qs)]

/-! ### Claim theorems -/

/-- C10: every invocation of `scanPrice` increments the in-memory `scanCount`
by exactly one and sets `lastScanAt` to the scan's start timestamp, for every
environment, including those in which the scan later fails — the counter
counts attempts, not successes. -/
theorem scanPrice_counts_every_attempt (st : ScannerStatus) (env : ScanEnv) (ty : ScanType) :
    (scanPrice st env ty).status.scanCount = st.scanCount + 1 ∧
    (scanPrice st env ty).status.lastScanAt = some env.now :=
  ⟨rfl, rfl⟩

/-- C1 (evaluation at the failing input): in the backfill branch the code
filters against the NEWEST stored timestamp (200), so it keeps all three
candles — including the one at 150, which is not strictly before the oldest
stored timestamp 100, and the one at 100, which duplicates a stored point —
and the assembled series has a duplicated timestamp. -/
theorem assembler_keeps_candles_after_oldest_stored :
    (getCombinedSeries c1Stored (fun _ => c1Hist)).series = c1Hist ++ c1Stored ∧
    (getCombinedSeries c1Stored (fun _ => c1Hist)).series.map PricePoint.timestamp =
      [50, 100, 150, 100, 200] ∧
    (∃ p ∈ (getCombinedSeries c1Stored (fun _ => c1Hist)).series.take 3,
      ¬ p.timestamp < 100) ∧
    ¬ ((getCombinedSeries c1Stored (fun _ => c1Hist)).series.map PricePoint.timestamp).Nodup := by
  refine ⟨by decide, by decide, by decide, by decide⟩

/-- C2 (evaluation at the failing input): with stored rows oldest-first and
strictly increasing, and historical candles sorted chronologically, the
assembled series is NOT strictly chronological (its timestamps are
[50,100,150,100,200]); the length bound `storedCount ≤ length` does hold. -/
theorem assembler_not_strictly_chronological :
    List.Chain' (· < ·) (c1Stored.map PricePoint.timestamp) ∧
    List.Chain' (· < ·) (c1Hist.map PricePoint.timestamp) ∧
    ¬ List.Chain' (· < ·)
        ((getCombinedSeries c1Stored (fun _ => c1Hist)).series.map PricePoint.timestamp) ∧
    (getCombinedSeries c1Stored (fun _ => c1Hist)).storedCount ≤
      (getCombinedSeries c1Stored (fun _ => c1Hist)).series.length := by
  have hser : (getCombinedSeries c1Stored (fun _ => c1Hist)).series.map PricePoint.timestamp =
      [50, 100, 150, 100, 200] := by decide
  refine ⟨?_, ?_, ?_, by decide⟩
  · simp [c1Stored, List.chain'_cons]
  · simp [c1Hist, List.chain'_cons]
  · rw [hser]
    simp [List.chain'_cons]

/-- C9: `detectEMACrossover` treats a present EMA value of exactly 0 as
absent (JS truthiness), returning `none`; in particular
`detectEMACrossover(1, 0, -1, 0) = none` although the bullish condition
`prevFast ≤ prevSlow ∧ curFast > curSlow` holds numerically. -/
theorem detectEMACrossover_zero_treated_absent :
    (∀ c12 c25 p12 p25 : ℚ,
      c12 = 0 ∨ c25 = 0 ∨ p12 = 0 ∨ p25 = 0 →
      detectEMACrossover (some c12) (some c25) (some p12) (some p25) = none) ∧
    (detectEMACrossover (some 1) (some 0) (some (-1)) (some 0) = none ∧
      ((-1 : ℚ) ≤ 0 ∧ (0 : ℚ) < 1)) := by
  constructor
  · rintro c12 c25 p12 p25 (rfl | rfl | rfl | rfl) <;> simp [detectEMACrossover, falsy]
  · refine ⟨by simp [detectEMACrossover, falsy], by norm_num⟩

/-- Witness for C9 at a concrete input: a zero current slow EMA yields
`none`. -/
theorem detectEMACrossover_zero_treated_absent_witness :
    detectEMACrossover (some 1) (some 0) (some 2) (some 3) = none :=
  detectEMACrossover_zero_treated_absent.1 1 0 2 3 (Or.inr (Or.inl rfl))

/-- C4 (counterexample): at `detectCrossover(1, 0, -1, 0)` all four EMA
arguments are present and the claimed bullish condition holds
(`-1 ≤ 0 ∧ 1 > 0`), yet the function returns `none`, so "with all four
present it returns bullish exactly when prevFast ≤ prevSlow and
curFast > curSlow" is false as stated. -/
theorem detectEMACrossover_present_zero_counterexample :
    detectEMACrossover (some 1) (some 0) (some (-1)) (some 0) = none ∧
    ((-1 : ℚ) ≤ 0 ∧ (0 : ℚ) < 1) := by
  refine ⟨by simp [detectEMACrossover, falsy], by norm_num⟩

/-- With all four arguments present and nonzero the truthiness guard passes
and the detector reduces to its two direction checks. -/
theorem detect_nonzero_eval (c12 c25 p12 p25 : ℚ)
    (h1 : c12 ≠ 0) (h2 : c25 ≠ 0) (h3 : p12 ≠ 0) (h4 : p25 ≠ 0) :
    detectEMACrossover (some c12) (some c25) (some p12) (some p25) =
      if p12 ≤ p25 ∧ c25 < c12 then some Signal.bullish
      else if p25 ≤ p12 ∧ c12 < c25 then some Signal.bearish
      else none := by
  have f1 : falsy (some c12) = false := by simp [falsy, h1]
  have f2 : falsy (some c25) = false := by simp [falsy, h2]
  have f3 : falsy (some p12) = false := by simp [falsy, h3]
  have f4 : falsy (some p25) = false := by simp [falsy, h4]
  simp [detectEMACrossover, f1, f2, f3, f4]

/-- C4 (amended): with all four EMA arguments present AND nonzero, the
detector returns bullish exactly when `prevFast ≤ prevSlow ∧ curFast >
curSlow`, bearish exactly when `prevFast ≥ prevSlow ∧ curFast < curSlow`,
and none otherwise; any absent argument yields none; and the three
concrete examples of the claim evaluate as stated. -/
theorem detectEMACrossover_amended_correct :
    (∀ a b c d : Option ℚ,
      a = none ∨ b = none ∨ c = none ∨ d = none →
      detectEMACrossover a b c d = none) ∧
    (∀ c12 c25 p12 p25 : ℚ, c12 ≠ 0 → c25 ≠ 0 → p12 ≠ 0 → p25 ≠ 0 →
      (detectEMACrossover (some c12) (some c25) (some p12) (some p25) = some Signal.bullish ↔
        p12 ≤ p25 ∧ c25 < c12) ∧
      (detectEMACrossover (some c12) (some c25) (some p12) (some p25) = some Signal.bearish ↔
        p25 ≤ p12 ∧ c12 < c25) ∧
      (detectEMACrossover (some c12) (some c25) (some p12) (some p25) = none ↔
        ¬(p12 ≤ p25 ∧ c25 < c12) ∧ ¬(p25 ≤ p12 ∧ c12 < c25))) ∧
    detectEMACrossover (some 10) (some 10) (some 9) (some 11) = none ∧
    detectEMACrossover (some 11) (some 10) (some 9) (some 11) = some Signal.bullish ∧
    detectEMACrossover (some 9) (some 11) (some 11) (some 9) = some Signal.bearish := by
  refine ⟨?_, ?_, by norm_num [detectEMACrossover, falsy],
    by norm_num [detectEMACrossover, falsy], by norm_num [detectEMACrossover, falsy]⟩
  · rintro a b c d (rfl | rfl | rfl | rfl) <;> simp [detectEMACrossover, falsy]
  · intro c12 c25 p12 p25 h1 h2 h3 h4
    rw [detect_nonzero_eval c12 c25 p12 p25 h1 h2 h3 h4]
    by_cases hb : p12 ≤ p25 ∧ c25 < c12
    · rw [if_pos hb]
      refine ⟨⟨fun _ => hb, fun _ => rfl⟩, ?_, ?_⟩
      · constructor
        · intro h; exact absurd h (by simp)
        · intro hs; exact absurd hs.2 (lt_asymm hb.2)
      · constructor
        · intro h; exact absurd h (by simp)
        · intro hcon; exact absurd hb hcon.1
    · rw [if_neg hb]
      by_cases hs : p25 ≤ p12 ∧ c12 < c25
      · rw [if_pos hs]
        refine ⟨?_, ⟨fun _ => hs, fun _ => rfl⟩, ?_⟩
        · constructor
          · intro h; exact absurd h (by simp)
          · intro hb'; exact absurd hb' hb
        · constructor
          · intro h; exact absurd h (by simp)
          · intro hcon; exact absurd hs hcon.2
      · rw [if_neg hs]
        refine ⟨?_, ?_, ⟨fun _ => ⟨hb, hs⟩, fun _ => rfl⟩⟩
        · constructor
          · intro h; exact absurd h (by simp)
          · intro hb'; exact absurd hb' hb
        · constructor
          · intro h; exact absurd h (by simp)
          · intro hs'; exact absurd hs' hs

/-- Witness for C4's amended theorem at a concrete nonzero input. -/
theorem detectEMACrossover_amended_correct_witness :
    detectEMACrossover (some 2) (some 3) (some 4) (some 5) = none :=
  ((detectEMACrossover_amended_correct.2.1 2 3 4 5 (by norm_num) (by norm_num)
    (by norm_num) (by norm_num)).2.2).mpr (by norm_num)

/-- C3: for every price list and period ≥ 1, `calculateEMA` is absent exactly
when the list is shorter than the period; otherwise it equals the spec's
reference fold (SMA seed, then `ema := v*k + ema*(1-k)` with
`k = 2/(period+1)`); and for period 1 it returns the last element exactly. -/
theorem calculateEMA_matches_spec (prices : List ℚ) (period : ℕ) (hp : 1 ≤ period) :
    (calculateEMA prices period = none ↔ prices.length < period) ∧
    calculateEMA prices period = computeEmaSpec prices period ∧
    (period = 1 → ∀ h : prices ≠ [], calculateEMA prices 1 = some (prices.getLast h)) := by
  refine ⟨?_, ?_, ?_⟩
  · unfold calculateEMA
    split <;> simp_all
  · unfold calculateEMA computeEmaSpec
    split
    · rfl
    · rw [emaLoop_eq_foldl]
  · rintro rfl h
    match prices, h with
    | p :: ps, _ =>
      have hlen : ¬ (p :: ps).length < 1 := by simp
      unfold calculateEMA
      rw [if_neg hlen]
      have hk : (2 : ℚ) / (((1 : ℕ) : ℚ) + 1) = 1 := by norm_num
      have hseed : ((p :: ps).take 1).sum / ((1 : ℕ) : ℚ) = p := by simp
      rw [hk, hseed, show (p :: ps).drop 1 = ps from rfl, emaLoop_one,
        getLastD_eq_getLast_cons]

/-- Witness for C3 at a concrete input: period 1 on `[2, 7]` returns the last
element, 7. -/
theorem calculateEMA_matches_spec_witness : calculateEMA [(2 : ℚ), 7] 1 = some 7 := by
  have h := (calculateEMA_matches_spec [(2 : ℚ), 7] 1 le_rfl).2.2 rfl (by simp)
  simpa using h

/-- C8 (amended): the route's start action is a no-op reporting
already-running whenever the stored handle is set (no second schedule is
created), and otherwise immediately runs one automatic scan, registers one
fresh recurring schedule and stores the handle of the un-awaited
`startScanning()` Promise; along any trace consisting of start invocations
only, at most one recurring schedule is ever live.  (The at-most-one
invariant does not extend to traces containing stop/restart, because
`clearInterval` receives the stored Promise and cancels nothing.) -/
theorem schedRoute_start_idempotent :
    (∀ (s : SchedulerState) (h : ℕ), s.stored = some h → startAction s = (s, true)) ∧
    (∀ s : SchedulerState, s.stored = none →
      (startAction s).1.live = s.live ++ [s.nextId] ∧
      (startAction s).1.scansRun = s.scansRun + 1 ∧
      (startAction s).1.stored = some s.nextId ∧
      (startAction s).2 = false) ∧
    (∀ acts : List Action, (∀ a ∈ acts, a = Action.start) →
      (schedRun acts).live.length ≤ 1) := by
  refine ⟨?_, ?_, ?_⟩
  · intro s h hst
    simp [startAction, hst]
  · intro s hst
    simp [startAction, hst]
  · intro acts hall
    have key : ∀ (l : List Action) (s : SchedulerState),
        (∀ a ∈ l, a = Action.start) →
        s.live.length ≤ 1 → (s.stored = none → s.live = []) →
        (l.foldl schedStep s).live.length ≤ 1 := by
      intro l
      induction l with
      | nil => intro s _ h1 _; exact h1
      | cons a rest ih =>
        intro s hall' h1 h2
        have ha : a = Action.start := hall' a (by simp)
        subst ha
        rcases hst : s.stored with _ | h'
        · have hle : s.live = [] := h2 hst
          refine ih _ (fun a ha => hall' a (by simp [ha])) ?_ ?_
          · simp [schedStep, startAction, hst, hle]
          · intro hcon
            simp [schedStep, startAction, hst] at hcon
        · have : schedStep s Action.start = s := by
            simp [schedStep, startAction, hst]
          rw [List.foldl_cons, this]
          exact ih s (fun a ha => hall' a (by simp [ha])) h1 h2
    exact key acts schedInit hall (by simp [schedInit]) (fun _ => rfl)

/-- Witness for C8's amended theorem: start on a running state is the
identity and reports already-running. -/
theorem schedRoute_start_idempotent_witness :
    startAction { live := [5], stored := some 5, nextId := 6, scansRun := 1 } =
      ({ live := [5], stored := some 5, nextId := 6, scansRun := 1 }, true) :=
  schedRoute_start_idempotent.1 _ 5 rfl

/-- C8 (counterexample): after the reachable route trace start–stop–start,
TWO recurring schedules are live, because the stop invocation passed the
stored Promise to `clearInterval` and cancelled nothing; this refutes "in
every reachable state at most one recurring schedule is active". -/
theorem schedRoute_two_live_intervals :
    (schedRun [Action.start, Action.stop, Action.start]).live = [0, 1] ∧
    (schedRun [Action.start, Action.stop, Action.start]).live.length = 2 := by
  refine ⟨rfl, rfl⟩

/-- The EMA loop over a concatenation folds the first part into the seed. -/
theorem emaLoop_append (k e : ℚ) (xs ys : List ℚ) :
    emaLoop k e (xs ++ ys) = emaLoop k (emaLoop k e xs) ys := by
  induction xs generalizing e with
  | nil => rfl
  | cons p ps ih => simpa [emaLoop] using ih (emaStep k e p)

/-- A chain over a concatenation restricts to the first part. -/
theorem chain_prefix {R : ℚ → ℚ → Prop} {c : ℚ} {u v : List ℚ}
    (h : List.Chain R c (u ++ v)) : List.Chain R c u := by
  induction u generalizing c with
  | nil => exact List.Chain.nil
  | cons p ps ih =>
    obtain ⟨hcp, hch⟩ := List.chain_cons.mp h
    exact List.Chain.cons hcp (ih hch)

/-- A chain over a concatenation links the last element of the first part to
the second part. -/
theorem chain_split_last {R : ℚ → ℚ → Prop} {c : ℚ} {u v : List ℚ}
    (h : List.Chain R c (u ++ v)) : List.Chain R (u.getLastD c) v := by
  induction u generalizing c with
  | nil => exact h
  | cons p ps ih =>
    obtain ⟨_, hch⟩ := List.chain_cons.mp h
    rw [List.getLastD_cons]
    exact ih hch

/-- Along a nondecreasing chain the starting point is at most the last
element. -/
theorem le_getLastD {c : ℚ} {l : List ℚ} (h : List.Chain (· ≤ ·) c l) :
    c ≤ l.getLastD c := by
  induction l generalizing c with
  | nil => exact le_refl c
  | cons p ps ih =>
    obtain ⟨hcp, hch⟩ := List.chain_cons.mp h
    rw [List.getLastD_cons]
    exact le_trans hcp (ih hch)

/-- Sum bound for a nondecreasing chain: the total is at most the last
element times the count. -/
theorem sum_le_getLastD {c : ℚ} {l : List ℚ} (h : List.Chain (· ≤ ·) c l) :
    c + l.sum ≤ l.getLastD c * (1 + l.length) := by
  induction l generalizing c with
  | nil => simp
  | cons p ps ih =>
    obtain ⟨hcp, hch⟩ := List.chain_cons.mp h
    have hp := ih hch
    have hc : c ≤ ps.getLastD p := le_trans hcp (le_getLastD hch)
    rw [List.getLastD_cons, List.sum_cons, List.length_cons]
    push_cast
    push_cast at hp
    linarith

/-- Monotone comparison of two EMA loops over the same nondecreasing tail:
a larger multiplier with a larger seed stays above, provided the smaller
seed is below the chain's starting point. -/
theorem emaLoop_le_emaLoop {k1 k2 : ℚ} (hk12 : k2 ≤ k1) (hk1 : k1 ≤ 1) :
    ∀ (l : List ℚ) (c e1 e2 : ℚ), List.Chain (· ≤ ·) c l → e2 ≤ e1 → e2 ≤ c →
      emaLoop k2 e2 l ≤ emaLoop k1 e1 l := by
  intro l
  induction l with
  | nil => intro c e1 e2 _ h21 _; exact h21
  | cons p ps ih =>
    intro c e1 e2 hch h21 h2c
    obtain ⟨hcp, hch'⟩ := List.chain_cons.mp hch
    have h2p : e2 ≤ p := le_trans h2c hcp
    have hstep21 : emaStep k2 e2 p ≤ emaStep k1 e1 p := by
      unfold emaStep
      nlinarith [mul_le_mul_of_nonneg_right h21 (by linarith : (0:ℚ) ≤ 1 - k1),
        mul_nonneg (by linarith : (0:ℚ) ≤ k1 - k2) (by linarith : (0:ℚ) ≤ p - e2)]
    have hstep2p : emaStep k2 e2 p ≤ p := by
      unfold emaStep
      nlinarith [mul_nonneg (by linarith : (0:ℚ) ≤ 1 - k2) (by linarith : (0:ℚ) ≤ p - e2)]
    exact ih p (emaStep k1 e1 p) (emaStep k2 e2 p) hch' hstep21 hstep2p

/-- Running-average invariant of the EMA loop: starting from a seed at or
above the average of `j` already-processed values (with total `S`), and with
multiplier `k ≥ 1/(j+1)`, the loop output stays at or above the running
average; the last element bound is carried alongside. -/
theorem emaLoop_avg {k : ℚ} (hk1 : k ≤ 1) :
    ∀ (l : List ℚ) (c e S : ℚ) (j : ℕ), 0 < j → 1 ≤ k * ((j : ℚ) + 1) →
      List.Chain (· ≤ ·) c l → S ≤ e * (j : ℚ) → S ≤ c * (j : ℚ) →
      S + l.sum ≤ emaLoop k e l * ((j : ℚ) + l.length) ∧
      S + l.sum ≤ l.getLastD c * ((j : ℚ) + l.length) := by
  intro l
  induction l with
  | nil =>
    intro c e S j _ _ _ hSe hSc
    constructor
    · simpa using hSe
    · simpa using hSc
  | cons p ps ih =>
    intro c e S j hj hkj hch hSe hSc
    obtain ⟨hcp, hch'⟩ := List.chain_cons.mp hch
    have hj0 : (0:ℚ) < j := by exact_mod_cast hj
    have hk0 : 0 < k := by nlinarith
    have hSp : S ≤ p * j := by nlinarith [mul_le_mul_of_nonneg_right hcp (le_of_lt hj0)]
    have hstep1 : S + p ≤ emaStep k e p * ((j : ℚ) + 1) := by
      unfold emaStep
      have h1 : S * ((1 - k) * ((j : ℚ) + 1)) ≤ (e * j) * ((1 - k) * ((j : ℚ) + 1)) := by
        apply mul_le_mul_of_nonneg_right hSe
        nlinarith
      have h2 : 0 ≤ (k * ((j : ℚ) + 1) - 1) * (p * j - S) :=
        mul_nonneg (by linarith) (by linarith)
      have key : (S + p) * j ≤ ((p * k + e * (1 - k)) * ((j : ℚ) + 1)) * j := by nlinarith
      exact le_of_mul_le_mul_right key hj0
    have hstep2 : S + p ≤ p * ((j : ℚ) + 1) := by nlinarith
    have hkj' : 1 ≤ k * (((j + 1 : ℕ) : ℚ) + 1) := by push_cast; nlinarith
    have hrec := ih p (emaStep k e p) (S + p) (j + 1) (Nat.succ_pos j) hkj' hch'
      (by push_cast; linarith [hstep1]) (by push_cast; linarith [hstep2])
    obtain ⟨ha, hb⟩ := hrec
    constructor
    · show S + (p :: ps).sum ≤ emaLoop k (emaStep k e p) ps * ((j : ℚ) + (p :: ps).length)
      rw [List.sum_cons, List.length_cons]
      push_cast at ha ⊢
      linarith
    · rw [List.sum_cons, List.length_cons, List.getLastD_cons]
      push_cast at hb ⊢
      linarith

/-- C7: over any strictly increasing price series long enough for both EMAs
(length ≥ 25), the fast EMA (period 12) computed by `calculateEMA` is at
least the slow EMA (period 25) — monotonically increasing input never
produces a crossed-down state. -/
theorem ema_monotone_no_cross (prices : List ℚ)
    (hmono : List.Chain' (· < ·) prices) (hlen : 25 ≤ prices.length) :
    ∀ a b : ℚ, calculateEMA prices 12 = some a → calculateEMA prices 25 = some b →
      b ≤ a := by
  intro a b ha hb
  have h12 : ¬ prices.length < 12 := by omega
  have h25 : ¬ prices.length < 25 := by omega
  unfold calculateEMA at ha hb
  rw [if_neg h12] at ha
  rw [if_neg h25] at hb
  have haeq := Option.some.inj ha
  have hbeq := Option.some.inj hb
  set k1 : ℚ := 2 / (((12 : ℕ) : ℚ) + 1) with hk1def
  set k2 : ℚ := 2 / (((25 : ℕ) : ℚ) + 1) with hk2def
  set l1 := prices.take 12 with hl1
  set lrest := prices.drop 12 with hlrest
  set l2a := lrest.take 13 with hl2a
  set l2b := lrest.drop 13 with hl2b
  have hl1len : l1.length = 12 := by
    rw [hl1, List.length_take]; omega
  have hl2alen : l2a.length = 13 := by
    rw [hl2a, hlrest, List.length_take, List.length_drop]; omega
  have hsplit : l2a ++ l2b = lrest := List.take_append_drop 13 lrest
  have hprices : l1 ++ lrest = prices := List.take_append_drop 12 prices
  have htake25 : prices.take 25 = l1 ++ l2a := by
    rw [show (25 : ℕ) = 12 + 13 from rfl, List.take_add]
  have hdrop25 : prices.drop 25 = l2b := by
    rw [hl2b, hlrest, List.drop_drop]
  -- split the head off the first 12 elements
  obtain ⟨a0, l1', hl1eq⟩ : ∃ a0 l1', l1 = a0 :: l1' := by
    cases h : l1 with
    | nil => rw [h] at hl1len; simp at hl1len
    | cons x xs => exact ⟨x, xs, rfl⟩
  have hl1'len : l1'.length = 11 := by
    rw [hl1eq] at hl1len; simpa using hl1len
  -- chains along the decomposition, weakened to ≤
  have hle : List.Chain' (· ≤ ·) prices := hmono.imp fun _ _ h => le_of_lt h
  have hchain0 : List.Chain (· ≤ ·) a0 (l1' ++ lrest) := by
    rw [← hprices, hl1eq] at hle
    exact hle
  set c1 := l1'.getLastD a0 with hc1
  have hchl1 : List.Chain (· ≤ ·) a0 l1' := chain_prefix hchain0
  have hch_ab : List.Chain (· ≤ ·) c1 (l2a ++ l2b) := by
    rw [hsplit]
    exact chain_split_last hchain0
  have hch_l2a : List.Chain (· ≤ ·) c1 l2a := chain_prefix hch_ab
  set c2 := l2a.getLastD c1 with hc2
  have hch_l2b : List.Chain (· ≤ ·) c2 l2b := chain_split_last hch_ab
  -- seed facts for the running-average lemma
  set S1 := l1.sum with hS1
  have h12ne : (((12 : ℕ) : ℚ)) ≠ 0 := by norm_num
  have hSe : S1 ≤ S1 / ((12 : ℕ) : ℚ) * ((12 : ℕ) : ℚ) :=
    le_of_eq (div_mul_cancel₀ S1 h12ne).symm
  have hSc : S1 ≤ c1 * ((12 : ℕ) : ℚ) := by
    have h := sum_le_getLastD hchl1
    rw [hl1'len] at h
    have hsum : S1 = a0 + l1'.sum := by rw [hS1, hl1eq, List.sum_cons]
    rw [hsum]
    push_cast at h ⊢
    linarith
  have hk1le : k1 ≤ 1 := by rw [hk1def]; norm_num
  have hk1avg : 1 ≤ k1 * (((12 : ℕ) : ℚ) + 1) := by rw [hk1def]; norm_num
  have havg := emaLoop_avg hk1le l2a c1
    (S1 / ((12 : ℕ) : ℚ)) S1 12 (by norm_num) hk1avg
    hch_l2a hSe hSc
  obtain ⟨hA, hB⟩ := havg
  rw [hl2alen] at hA hB
  -- seed of the slow EMA
  set S25 := S1 + l2a.sum with hS25
  have hseed25 : (prices.take 25).sum = S25 := by
    rw [htake25, List.sum_append, hS25, hS1]
  have h25pos : (0 : ℚ) < ((25 : ℕ) : ℚ) := by norm_num
  have hcast : ((12 : ℕ) : ℚ) + ((13 : ℕ) : ℚ) = ((25 : ℕ) : ℚ) := by norm_num
  have hE12_25 : S25 ≤ emaLoop k1 (S1 / ((12 : ℕ) : ℚ)) l2a * ((25 : ℕ) : ℚ) := by
    rw [← hcast]; exact hA
  have hc2_25 : S25 ≤ c2 * ((25 : ℕ) : ℚ) := by
    rw [← hcast]; exact hB
  have hseed_le : S25 / ((25 : ℕ) : ℚ) ≤ emaLoop k1 (S1 / ((12 : ℕ) : ℚ)) l2a := by
    rw [div_le_iff₀ h25pos]; exact hE12_25
  have hseed_le_c2 : S25 / ((25 : ℕ) : ℚ) ≤ c2 := by
    rw [div_le_iff₀ h25pos]; exact hc2_25
  -- compare the two loops over the common tail
  have hk21 : k2 ≤ k1 := by rw [hk1def, hk2def]; norm_num
  have hfinal := emaLoop_le_emaLoop hk21 hk1le
    l2b c2 (emaLoop k1 (S1 / ((12 : ℕ) : ℚ)) l2a) (S25 / ((25 : ℕ) : ℚ))
    hch_l2b hseed_le hseed_le_c2
  -- identify a and b
  have haval : a = emaLoop k1 (emaLoop k1 (S1 / ((12 : ℕ) : ℚ)) l2a) l2b := by
    rw [← haeq, ← hsplit, emaLoop_append]
  have hbval : b = emaLoop k2 (S25 / ((25 : ℕ) : ℚ)) l2b := by
    rw [← hbeq, hseed25, hdrop25]
  rw [haval, hbval]
  exact hfinal

/-- Witness for C7: the strictly increasing series 1..25 has fast EMA above
slow EMA. -/
theorem ema_monotone_no_cross_witness :
    (calculateEMA upList 25).getD 0 ≤ (calculateEMA upList 12).getD 0 := by
  have hmono : List.Chain' (· < ·) upList := by
    norm_num [upList, List.chain'_cons]
  have hlen : 25 ≤ upList.length := by norm_num [upList]
  have h := ema_monotone_no_cross upList hmono hlen
  rcases e12 : calculateEMA upList 12 with _ | a
  · exfalso
    rw [calculateEMA, if_neg (by norm_num [upList])] at e12
    exact Option.noConfusion e12
  · rcases e25 : calculateEMA upList 25 with _ | b
    · exfalso
      rw [calculateEMA, if_neg (by norm_num [upList])] at e25
      exact Option.noConfusion e25
    · simpa using h a b e12 e25

/-- A non-none crossover implies the truthiness guard on both current EMAs
passed. -/
theorem crossoverOfPrices_guard {l : List ℚ} {k : Signal}
    (h : crossoverOfPrices l = some k) :
    falsy (computeEmas l).1 = false ∧ falsy (computeEmas l).2.1 = false := by
  by_cases hc : (!falsy (computeEmas l).1 && !falsy (computeEmas l).2.1 &&
      !falsy (computeEmas l).2.2.1 && !falsy (computeEmas l).2.2.2) = true
  · simp only [Bool.and_eq_true, Bool.not_eq_true'] at hc
    exact ⟨hc.1.1.1, hc.1.1.2⟩
  · exfalso
    simp only [crossoverOfPrices] at h
    rw [if_neg hc] at h
    exact Option.noConfusion h

/-- Branch equation: the current-price fetch throws. -/
theorem scanEffects_fetchFail (env : ScanEnv) (ty : ScanType)
    (hf : env.fetchCurrent = none) :
    scanEffects env ty = errEffects ty env.now env.elapsed env.fetchErrMsg [] := by
  simp [scanEffects, hf]

/-- Branch equation: the price-row insert throws. -/
theorem scanEffects_priceFail (env : ScanEnv) (ty : ScanType) (cur : PriceData)
    (hf : env.fetchCurrent = some cur) (hsp : env.storePriceOk = false) :
    scanEffects env ty = errEffects ty env.now env.elapsed env.storePriceErrMsg [] := by
  simp [scanEffects, hf, hsp]

/-- Branch equation: no crossover; the scan succeeds with no signal row. -/
theorem scanEffects_noSignal (env : ScanEnv) (ty : ScanType) (cur : PriceData)
    (hf : env.fetchCurrent = some cur) (hsp : env.storePriceOk = true)
    (hcs : crossoverOfPrices (allPricesOf env cur) = none) :
    scanEffects env ty =
      successEffects ty env.now env.elapsed cur (computeEmas (allPricesOf env cur)) none
        (allPricesOf env cur).length
        { timestamp := cur.timestamp, price := cur.price, volume := cur.volume,
          ema_12 := (computeEmas (allPricesOf env cur)).1,
          ema_25 := (computeEmas (allPricesOf env cur)).2.1 }
        [] false := by
  simp [scanEffects, hf, hsp, hcs]

/-- Branch equation: crossover detected and the signal insert succeeds. -/
theorem scanEffects_signal (env : ScanEnv) (ty : ScanType) (cur : PriceData) (k : Signal)
    (hf : env.fetchCurrent = some cur) (hsp : env.storePriceOk = true)
    (hcs : crossoverOfPrices (allPricesOf env cur) = some k)
    (hss : env.storeSignalOk = true) :
    scanEffects env ty =
      successEffects ty env.now env.elapsed cur (computeEmas (allPricesOf env cur)) (some k)
        (allPricesOf env cur).length
        { timestamp := cur.timestamp, price := cur.price, volume := cur.volume,
          ema_12 := (computeEmas (allPricesOf env cur)).1,
          ema_25 := (computeEmas (allPricesOf env cur)).2.1 }
        [{ timestamp := cur.timestamp, signal_type := k, price := cur.price,
           ema_12 := (computeEmas (allPricesOf env cur)).1,
           ema_25 := (computeEmas (allPricesOf env cur)).2.1,
           previous_ema_12 := (computeEmas (allPricesOf env cur)).2.2.1,
           previous_ema_25 := (computeEmas (allPricesOf env cur)).2.2.2,
           scan_type := ty }]
        env.webhookOk := by
  obtain ⟨g1, g2⟩ := crossoverOfPrices_guard hcs
  simp [scanEffects, hf, hsp, hcs, g1, g2, hss]

/-- Branch equation: crossover detected but the signal insert throws; the
price row persisted earlier survives. -/
theorem scanEffects_signalFail (env : ScanEnv) (ty : ScanType) (cur : PriceData) (k : Signal)
    (hf : env.fetchCurrent = some cur) (hsp : env.storePriceOk = true)
    (hcs : crossoverOfPrices (allPricesOf env cur) = some k)
    (hss : env.storeSignalOk = false) :
    scanEffects env ty =
      errEffects ty env.now env.elapsed env.storeSignalErrMsg
        [{ timestamp := cur.timestamp, price := cur.price, volume := cur.volume,
           ema_12 := (computeEmas (allPricesOf env cur)).1,
           ema_25 := (computeEmas (allPricesOf env cur)).2.1 }] := by
  obtain ⟨g1, g2⟩ := crossoverOfPrices_guard hcs
  simp [scanEffects, hf, hsp, hcs, g1, g2, hss]

/-- C6: whenever a throwing step precedes the scan-record write — the
current-price fetch, the price-row insert, or the signal insert (series
assembly and EMA computation cannot throw: `getCombinedPriceData` catches
all its failures and the calculator is total) — the orchestrator still
writes exactly one ScanRecord, with outcome error, carrying the captured
error message and the elapsed time, and returns a failure result carrying
the same message. -/
theorem scanPrice_error_always_recorded (st : ScannerStatus) (env : ScanEnv) (ty : ScanType)
    (h : env.fetchCurrent = none ∨ env.storePriceOk = false ∨
      (scanVerdict env ≠ none ∧ env.storeSignalOk = false)) :
    (scanPrice st env ty).result.success = false ∧
    ∃ msg, (scanPrice st env ty).result.error = some msg ∧
      ∃ r, (scanPrice st env ty).scanRecords = [r] ∧
        r.status = Outcome.error ∧ r.error_message = some msg ∧
        r.duration_ms = env.elapsed ∧ r.scan_type = ty ∧ r.timestamp = env.now := by
  have hres : (scanPrice st env ty).result = (scanEffects env ty).result := rfl
  have hrec : (scanPrice st env ty).scanRecords = (scanEffects env ty).scanRecords := rfl
  rcases hfc : env.fetchCurrent with _ | cur
  · rw [hres, hrec, scanEffects_fetchFail env ty hfc]
    exact ⟨rfl, env.fetchErrMsg, rfl, _, rfl, rfl, rfl, rfl, rfl, rfl⟩
  · rcases hsp : env.storePriceOk with _ | _
    · rw [hres, hrec, scanEffects_priceFail env ty cur hfc hsp]
      exact ⟨rfl, env.storePriceErrMsg, rfl, _, rfl, rfl, rfl, rfl, rfl, rfl⟩
    · rcases h with hf' | hsp' | ⟨hv, hss⟩
      · rw [hfc] at hf'
        exact Option.noConfusion hf'
      · rw [hsp] at hsp'
        exact Bool.noConfusion hsp'
      · rcases hcs : crossoverOfPrices (allPricesOf env cur) with _ | k
        · exfalso
          apply hv
          simp [scanVerdict, hfc, hcs]
        · rw [hres, hrec, scanEffects_signalFail env ty cur k hfc hsp hcs hss]
          exact ⟨rfl, env.storeSignalErrMsg, rfl, _, rfl, rfl, rfl, rfl, rfl, rfl⟩

/-- Witness for C6: a throwing current-price fetch yields a failure result. -/
theorem scanPrice_error_always_recorded_witness :
    (scanPrice initialStatus envFetchFail ScanType.automatic).result.success = false :=
  (scanPrice_error_always_recorded initialStatus envFetchFail ScanType.automatic
    (Or.inl rfl)).1

/-- C5 (amended): a Signal row is recorded exactly when the detector
returned a non-none verdict AND the scan completed successfully (a persist
step throwing after detection aborts the scan without a signal row); and
every recorded signal's `ema_12`/`ema_25` equal the ones written to that
scan's ScanRecord. -/
theorem scanPrice_signal_iff_verdict (st : ScannerStatus) (env : ScanEnv) (ty : ScanType) :
    ((scanPrice st env ty).signalRows ≠ [] ↔
      scanVerdict env ≠ none ∧ (scanPrice st env ty).result.success = true) ∧
    (∀ sig ∈ (scanPrice st env ty).signalRows, ∀ rec ∈ (scanPrice st env ty).scanRecords,
      sig.ema_12 = rec.ema_12 ∧ sig.ema_25 = rec.ema_25) := by
  have hres : (scanPrice st env ty).result = (scanEffects env ty).result := rfl
  have hrec : (scanPrice st env ty).scanRecords = (scanEffects env ty).scanRecords := rfl
  have hsig : (scanPrice st env ty).signalRows = (scanEffects env ty).signalRows := rfl
  rcases hfc : env.fetchCurrent with _ | cur
  · rw [hres, hrec, hsig, scanEffects_fetchFail env ty hfc]
    simp [errEffects]
  · rcases hsp : env.storePriceOk with _ | _
    · rw [hres, hrec, hsig, scanEffects_priceFail env ty cur hfc hsp]
      simp [errEffects]
    · rcases hcs : crossoverOfPrices (allPricesOf env cur) with _ | k
      · rw [hres, hrec, hsig, scanEffects_noSignal env ty cur hfc hsp hcs]
        simp [successEffects, scanVerdict, hfc, hcs]
      · rcases hss : env.storeSignalOk with _ | _
        · rw [hres, hrec, hsig, scanEffects_signalFail env ty cur k hfc hsp hcs hss]
          simp [errEffects]
        · rw [hres, hrec, hsig, scanEffects_signal env ty cur k hfc hsp hcs hss]
          simp [successEffects, scanVerdict, hfc, hcs]

/-- Witness for C5's amended theorem: in `envSig` (25 stored prices of 10,
current price 23, all persists succeeding) the detector fires and a signal
row is recorded. -/
theorem scanPrice_signal_iff_verdict_witness :
    (scanPrice initialStatus envSig ScanType.manual).signalRows ≠ [] := by
  refine (scanPrice_signal_iff_verdict initialStatus envSig ScanType.manual).1.mpr ⟨?_, ?_⟩
  · have hv : scanVerdict envSig = some Signal.bullish := by
      norm_num [scanVerdict, envSig, crossoverOfPrices, computeEmas, allPricesOf,
        getCombinedSeries, constStored, calculateEMA, emaLoop, emaStep,
        falsy, detectEMACrossover, ema12Period, ema25Period]
    rw [hv]
    exact Option.noConfusion
  · norm_num [scanPrice, scanEffects, successEffects, envSig, crossoverOfPrices,
      computeEmas, allPricesOf, getCombinedSeries, constStored, calculateEMA,
      emaLoop, emaStep, falsy, detectEMACrossover, ema12Period, ema25Period]

/-- C5 (counterexample): in `envSigFail` the detector returns bullish, yet —
because the signal insert throws — no Signal row is recorded, refuting "a
Signal row is recorded if and only if the Detector returned a non-none
verdict in that same scan". -/
theorem scanPrice_signal_dropped_on_persist_failure :
    scanVerdict envSigFail = some Signal.bullish ∧
    (scanPrice initialStatus envSigFail ScanType.manual).signalRows = [] := by
  constructor
  · norm_num [scanVerdict, envSigFail, envSig, crossoverOfPrices, computeEmas, allPricesOf,
      getCombinedSeries, constStored, calculateEMA, emaLoop, emaStep,
      falsy, detectEMACrossover, ema12Period, ema25Period]
  · norm_num [scanPrice, scanEffects, successEffects, errEffects, envSigFail, envSig,
      crossoverOfPrices, computeEmas, allPricesOf, getCombinedSeries, constStored,
      calculateEMA, emaLoop, emaStep, falsy, detectEMACrossover, ema12Period, ema25Period]

end Scanner
